import Mathlib

/-!
Verification of the reliable Go-Back-N transport of the ComputerNetworkChatroom
repository.  The definitions below are a shallow embedding of `transport.py`
(class `TransportConnection`, class `TransportPacket`, `maybe_drop_packet`) and
of the `ClientConnection` handshake in `server_multiplexed.py`.  Bytes are
modelled as `Nat` values below 256, byte strings as `List Nat`, Python dicts
keyed by sequence number as association lists, and Python floats drawn by the
loss injector as exact rationals.
-/

namespace Transport

set_option maxHeartbeats 1000000

/-! ## Wire codec (`TransportPacket`, constants.py `HEADER_FORMAT = "!BBHIIHHI"`) -/

/-- A transport packet, mirroring `TransportPacket.__init__`.  The Python
constructor discards its `length` argument and always sets
`self.len = len(self.payload)`, so the length attribute is modelled as the
derived `Packet.len` below rather than as a stored field. -/
structure Packet where
  ver : Nat
  flags : Nat
  connId : Nat
  seq : Nat
  ack : Nat
  recvWin : Nat
  checksum : Nat
  payload : List Nat
deriving DecidableEq

/-- `self.len = len(self.payload)` (set in `__init__` and again in `pack`). -/
def Packet.len (p : Packet) : Nat := p.payload.length

/-- Big-endian digits of a 2-byte field (`H` in the struct format). -/
def be16 (n : Nat) : List Nat := [n / 256 % 256, n % 256]

/-- Big-endian digits of a 4-byte field (`I` in the struct format). -/
def be32 (n : Nat) : List Nat :=
  [n / 16777216 % 256, n / 65536 % 256, n / 256 % 256, n % 256]

/-- Reassemble a 2-byte big-endian field. -/
def de16 (a b : Nat) : Nat := a * 256 + b

/-- Reassemble a 4-byte big-endian field. -/
def de32 (a b c d : Nat) : Nat := ((a * 256 + b) * 256 + c) * 256 + d

/-- The 20-byte header produced by `struct.pack(HEADER_FORMAT, ...)`.
`struct.pack` raises for out-of-range values; each field is reduced to its
bytes here, which agrees with the source on every in-range value (the
well-formedness hypothesis used by the theorems). -/
def headerBytes (ver flags connId seq ack recvWin length checksum : Nat) : List Nat :=
  [ver % 256, flags % 256] ++ be16 connId ++ be32 seq ++ be32 ack ++
    be16 recvWin ++ be16 length ++ be32 checksum

/-- `TransportPacket.compute_checksum`: unsigned 32-bit sum of the header bytes
(with the checksum field zeroed and the length field set to the actual payload
length, exactly as the Python method packs `self.len`) plus the payload bytes,
modulo 2^32.  The stored `checksum` field is never read. -/
def computeChecksum (p : Packet) : Nat :=
  ((headerBytes p.ver p.flags p.connId p.seq p.ack p.recvWin p.payload.length 0).sum
    + p.payload.sum) % 4294967296

/-- `TransportPacket.pack`: header (with recomputed length and checksum)
followed by the payload. -/
def Packet.pack (p : Packet) : List Nat :=
  headerBytes p.ver p.flags p.connId p.seq p.ack p.recvWin p.payload.length
    (computeChecksum p) ++ p.payload

/-- `TransportPacket.unpack`.  Mirrors the source: inputs shorter than the
20-byte header are rejected (`raise ValueError`, here `none`), the fixed header
fields are decoded big-endian, everything after the header is the payload, and
the packet is accepted iff `verify_checksum` succeeds.  `verify_checksum`
builds a temporary packet whose constructor discards the decoded length field
(bytes 14-15, bound as `_b14`/`_b15`) and zeroes the checksum, so the
recomputed checksum uses the actual payload length; the final constructor
likewise discards the decoded length field. -/
def unpack (data : List Nat) : Option Packet :=
  match data with
  | b0 :: b1 :: b2 :: b3 :: b4 :: b5 :: b6 :: b7 :: b8 :: b9 :: b10 :: b11 ::
      b12 :: b13 :: _b14 :: _b15 :: b16 :: b17 :: b18 :: b19 :: payload =>
    if computeChecksum ⟨b0, b1, de16 b2 b3, de32 b4 b5 b6 b7, de32 b8 b9 b10 b11,
        de16 b12 b13, 0, payload⟩ = de32 b16 b17 b18 b19
    then some ⟨b0, b1, de16 b2 b3, de32 b4 b5 b6 b7, de32 b8 b9 b10 b11,
        de16 b12 b13, de32 b16 b17 b18 b19, payload⟩
    else none
  | _ => none

/-- A packet `struct.pack` accepts: every field within its wire range, payload
made of bytes, and a checksum attribute consistent with the packed bytes (as
`pack` itself establishes). -/
def WellFormed (p : Packet) : Prop :=
  p.ver < 256 ∧ p.flags < 256 ∧ p.connId < 65536 ∧ p.seq < 4294967296 ∧
    p.ack < 4294967296 ∧ p.recvWin < 65536 ∧ p.payload.length < 65536 ∧
    (∀ b ∈ p.payload, b < 256) ∧ p.checksum = computeChecksum p

instance (p : Packet) : Decidable (WellFormed p) := by
  unfold WellFormed; infer_instance

/-- The checksum stored in a wire image: big-endian bytes 16-19. -/
def storedChecksum (data : List Nat) : Nat :=
  de32 (data.getD 16 0) (data.getD 17 0) (data.getD 18 0) (data.getD 19 0)

/-- The checksum `verify_checksum` recomputes on a wire image, written without
reference to the decoder: the sum of the first 14 header bytes, the two
big-endian digits of the actual payload length, and the payload bytes, all
modulo 2^32.  The stored length field (bytes 14-15) does not appear. -/
def recomputedChecksum (data : List Nat) : Nat :=
  ((data.take 14).sum + (data.length - 20) / 256 % 256 + (data.length - 20) % 256
    + (data.drop 20).sum) % 4294967296

/-! ## Connection endpoint (`TransportConnection`) -/

/-- The per-connection metrics dictionary initialised in
`TransportConnection.__init__`.  Timestamps are `Nat` instants supplied by the
callers of the step functions; RTT samples are stored as differences. -/
structure Metrics where
  startTime : Option Nat
  endTime : Option Nat
  bytesSent : Nat
  bytesResent : Nat
  bytesDelivered : Nat
  messagesSent : Nat
  messagesDelivered : Nat
  retransmissions : Nat
  oooPackets : Nat
  rttSamples : List Int
deriving DecidableEq

def initMetrics : Metrics :=
  { startTime := none, endTime := none, bytesSent := 0, bytesResent := 0,
    bytesDelivered := 0, messagesSent := 0, messagesDelivered := 0,
    retransmissions := 0, oooPackets := 0, rttSamples := [] }

/-- The Python dict `self.unacked_packets : seq_num -> (packet, send_time)`,
modelled as an association list in insertion order (keys are inserted in
strictly increasing sequence order, so the order is ascending). -/
abbrev UnackedMap := List (Nat × Packet × Nat)

/-- Dictionary lookup (`d.get(key)` / `key in d`). -/
def lookupKey (key : Nat) : UnackedMap → Option (Packet × Nat)
  | [] => none
  | e :: t => if e.1 = key then some e.2 else lookupKey key t

/-- Dictionary assignment `d[key] = v`: replace the entry if the key is
present, otherwise append. -/
def dictInsert (key : Nat) (v : Packet × Nat) (m : UnackedMap) : UnackedMap :=
  if (lookupKey key m).isSome then
    m.map (fun e => if e.1 = key then (key, v) else e)
  else m ++ [(key, v)]

/-- Dictionary removal `d.pop(key, default)`: the looked-up value (if any) and
the map without that key. -/
def dictPop (key : Nat) (m : UnackedMap) : Option (Packet × Nat) × UnackedMap :=
  (lookupKey key m, m.filter (fun e => decide (e.1 ≠ key)))

/-- The clamp applied at every assignment of `peer_recv_win` from a received
packet: `pkt.recv_win if pkt.recv_win > 0 else 1`. -/
def clampWin (w : Nat) : Nat := if 0 < w then w else 1

/-- Mutable state of one `TransportConnection` (both sender and receiver
sides), plus the ghost log `delivered` recording every `on_message(payload)`
callback invocation as a `(seq, payload)` pair in call order. -/
structure ConnState where
  sendBase : Nat
  nextSeq : Nat
  windowSize : Nat
  unacked : UnackedMap
  timerRunning : Bool
  expectedSeq : Nat
  recvBufferSize : Nat
  recvWin : Nat
  peerRecvWin : Nat
  connId : Nat
  connected : Bool
  metrics : Metrics
  delivered : List (Nat × List Nat)
deriving DecidableEq

/-- `TransportConnection.__init__`: `WINDOW_SIZE = 5`, receive buffer 10,
`peer_recv_win` initialised to `WINDOW_SIZE`. -/
def initState : ConnState :=
  { sendBase := 0, nextSeq := 0, windowSize := 5, unacked := [],
    timerRunning := false, expectedSeq := 0, recvBufferSize := 10,
    recvWin := 10, peerRecvWin := 5, connId := 0, connected := false,
    metrics := initMetrics, delivered := [] }

/-- The data packet constructed in `send_msg`:
`TransportPacket(seq=next_seq_num, ack=0, payload=data, conn_id, recv_win)`. -/
def sendPacket (s : ConnState) (data : List Nat) : Packet :=
  { ver := 1, flags := 0, connId := s.connId, seq := s.nextSeq, ack := 0,
    recvWin := s.recvWin, checksum := 0, payload := data }

/-- The spec vocabulary for the value `send` is claimed to return.  The Python
`send_msg` has no `return` statement, so it evaluates to `None` on both the
admitted path and the window-full path; the third component of `sendMsg`
below is therefore `none` in both branches. -/
inductive SendSignal
  | seqAssigned (n : Nat)
  | windowFull
deriving DecidableEq

/-- `TransportConnection.send_msg`.  Result: the new state, the packets handed
to `_sendto` (the loss injector is modelled separately by
`maybeDropPacket`), and the Python return value. -/
def sendMsg (s : ConnState) (data : List Nat) (now : Nat) :
    ConnState × List Packet × Option SendSignal :=
  if s.nextSeq < s.sendBase + min s.windowSize s.peerRecvWin then
    ({ s with
        unacked := dictInsert s.nextSeq (sendPacket s data, now) s.unacked,
        timerRunning := if s.sendBase = s.nextSeq then true else s.timerRunning,
        nextSeq := s.nextSeq + 1,
        metrics := { s.metrics with
          startTime := some (s.metrics.startTime.getD now),
          bytesSent := s.metrics.bytesSent + data.length,
          messagesSent := s.metrics.messagesSent + 1 } },
      [sendPacket s data], none)
  else (s, [], none)

/-- The loop `for seq in range(send_base, pkt.ack): pop; append RTT sample`
inside `_recv_loop`'s ACK processing, iterating `k` keys upward from `lo`. -/
def popRange (m : UnackedMap) (samples : List Int) (lo k now : Nat) :
    UnackedMap × List Int :=
  match k with
  | 0 => (m, samples)
  | k + 1 =>
    match dictPop lo m with
    | (some e, m2) => popRange m2 (samples ++ [(now : Int) - (e.2 : Int)]) (lo + 1) k now
    | (none, m2) => popRange m2 samples (lo + 1) k now

/-- The ACK-processing block of `_recv_loop` (guarded by
`pkt.ack > send_base`): update `peer_recv_win` with the zero clamp, pop and
sample every sequence in `[send_base, pkt.ack)`, advance `send_base`, and
cancel the timer on a full acknowledgment or restart it otherwise.  A packet
with `ack <= send_base` leaves the state untouched. -/
def processAck (s : ConnState) (pkt : Packet) (now : Nat) : ConnState :=
  if s.sendBase < pkt.ack then
    let pr := popRange s.unacked s.metrics.rttSamples s.sendBase
      (pkt.ack - s.sendBase) now
    { s with
        peerRecvWin := clampWin pkt.recvWin,
        unacked := pr.1,
        sendBase := pkt.ack,
        timerRunning := if pkt.ack = s.nextSeq then false else true,
        metrics := { s.metrics with rttSamples := pr.2 } }
  else s

/-- `TransportConnection._timeout`: walk `range(send_base, next_seq_num)`,
retransmit every sequence still present in `unacked` (in ascending order,
skipping absent keys exactly as `dict.get` does), count each retransmission
and its payload bytes, and restart the timer. -/
def timeoutStep (s : ConnState) : ConnState × List Packet :=
  let txs := (List.range' s.sendBase (s.nextSeq - s.sendBase)).filterMap
    (fun q => (lookupKey q s.unacked).map (fun e => e.1))
  ({ s with
      timerRunning := true,
      metrics := { s.metrics with
        retransmissions := s.metrics.retransmissions + txs.length,
        bytesResent := s.metrics.bytesResent +
          (txs.map (fun p => p.payload.length)).sum } }, txs)

/-- The data-packet block of `_recv_loop` (lines guarded by `if pkt.payload:`):
deliver in order and advance `expected_seq` on a match, count an out-of-order
packet on `seq > expected_seq`, drop a duplicate silently, then emit the
cumulative ACK `TransportPacket(seq=0, ack=expected_seq, flags=ACK,
conn_id, recv_win)`.  Packets with empty payload take none of these steps and
produce no ACK. -/
def dataStep (s : ConnState) (pkt : Packet) (now : Nat) : ConnState × List Packet :=
  if pkt.payload ≠ [] then
    let s2 :=
      if pkt.seq = s.expectedSeq then
        { s with
            expectedSeq := s.expectedSeq + 1,
            recvWin := s.recvBufferSize,
            delivered := s.delivered ++ [(pkt.seq, pkt.payload)],
            metrics := { s.metrics with
              startTime := some (s.metrics.startTime.getD now),
              bytesDelivered := s.metrics.bytesDelivered + pkt.payload.length,
              messagesDelivered := s.metrics.messagesDelivered + 1,
              endTime := some now } }
      else if s.expectedSeq < pkt.seq then
        { s with metrics := { s.metrics with
            oooPackets := s.metrics.oooPackets + 1 } }
      else s
    (s2, [{ ver := 1, flags := 16, connId := s2.connId, seq := 0,
            ack := s2.expectedSeq, recvWin := s2.recvWin, checksum := 0,
            payload := [] }])
  else (s, [])

/-! ## Sender transition system -/

/-- The sender-side operations of one endpoint: a `send_msg` call, the ACK
processing performed by `_recv_loop` on an arriving packet, and a
retransmission-timer expiry. -/
inductive Event where
  | send (data : List Nat) (now : Nat)
  | recvAck (pkt : Packet) (now : Nat)
  | timerFire

def step (s : ConnState) (e : Event) : ConnState :=
  match e with
  | .send d n => (sendMsg s d n).1
  | .recvAck p n => processAck s p n
  | .timerFire => (timeoutStep s).1

/-- The condition on an incoming packet under which the ACK-processing block
preserves the sender invariants: its cumulative `ack` does not exceed
`next_seq`, and its advertised window, after the zero clamp, is at least the
configured `window_size`.  The peer's data ACKs have this shape (their `ack`
is its `expected_seq`, which never exceeds the sequences we sent, and they
advertise `recv_win = 10 >= WINDOW_SIZE = 5`) - but not every packet the
codebase's own peer sends does: the client's final handshake ACK carries
`ack = 1` and reaches a responder's ACK block while its `next_seq` is still 0
(see `handshake_ack_breaks_invariant`). -/
def ConformingAck (s : ConnState) (p : Packet) : Prop :=
  p.ack ≤ s.nextSeq ∧ s.windowSize ≤ clampWin p.recvWin

/-- The final handshake ACK the initiator sends on receiving the SYN-ACK
(transport.py lines 240-247): `TransportPacket(flags=ACK, conn_id, seq=1,
ack=pkt.seq + 1, recv_win=self.recv_win)`.  The responder's SYN-ACK carries
`seq = 0`, so this packet carries `ack = 1`; the initiator advertises its
`recv_win = 10`. -/
def clientFinalAck (connId synAckSeq recvWin : Nat) : Packet :=
  { ver := 1, flags := 16, connId := connId, seq := 1, ack := synAckSeq + 1,
    recvWin := recvWin, checksum := 0, payload := [] }

/-- States reachable from `__init__` through sender operations whose incoming
ACK packets come from a conforming peer. -/
inductive ReachableConforming : ConnState → Prop
  | init : ReachableConforming initState
  | send (s : ConnState) (d : List Nat) (n : Nat) :
      ReachableConforming s → ReachableConforming (step s (.send d n))
  | recvAck (s : ConnState) (p : Packet) (n : Nat) :
      ReachableConforming s → ConformingAck s p →
      ReachableConforming (step s (.recvAck p n))
  | timerFire (s : ConnState) :
      ReachableConforming s → ReachableConforming (step s .timerFire)

/-- The claimed sender window invariants. -/
def SenderInv (s : ConnState) : Prop :=
  s.sendBase ≤ s.nextSeq ∧
    s.unacked.length = s.nextSeq - s.sendBase ∧
    s.nextSeq - s.sendBase ≤ min s.windowSize s.peerRecvWin

instance (s : ConnState) : Decidable (SenderInv s) := by
  unfold SenderInv; infer_instance

/-- Strengthened invariant: the keys of `unacked` are exactly the sequences
`send_base, ..., next_seq - 1` in ascending order. -/
def FullInv (s : ConnState) : Prop :=
  s.sendBase ≤ s.nextSeq ∧
    s.unacked.map (fun e => e.1) = List.range' s.sendBase (s.nextSeq - s.sendBase) ∧
    s.nextSeq - s.sendBase ≤ min s.windowSize s.peerRecvWin

/-- A concrete state with two outstanding packets, used by witnesses. -/
def twoOutstanding : ConnState :=
  { initState with
      nextSeq := 2,
      unacked := [(0, ⟨1, 0, 7, 0, 0, 10, 0, [65]⟩, 3),
        (1, ⟨1, 0, 7, 1, 0, 10, 0, [66, 67]⟩, 4)],
      timerRunning := true }

/-- A concrete state whose effective window (`min(5, 1) = 1`) is exhausted. -/
def fullWindow : ConnState :=
  { initState with
      peerRecvWin := 1,
      nextSeq := 1,
      unacked := [(0, ⟨1, 0, 0, 0, 0, 10, 0, [65]⟩, 0)],
      timerRunning := true }

/-! ## Receiver: in-order delivery -/

/-- One `_recv_loop` iteration restricted to the data-packet block, at a fixed
instant (the delivery timestamps do not affect delivery behaviour). -/
def stepRecv (s : ConnState) (p : Packet) : ConnState := (dataStep s p 0).1

/-- Folding a stream of incoming packets through the receiver. -/
def runRecvFrom (s : ConnState) (ps : List Packet) : ConnState :=
  ps.foldl stepRecv s

def runRecv (ps : List Packet) : ConnState := runRecvFrom initState ps

/-- The packets of a stream are (re)transmissions of the messages admitted by
`send_msg` on the peer: packet `seq` indexes the admitted message list and the
payload is that message (as `send_msg` builds and `_timeout` resends them). -/
def Consistent (msgs : List (List Nat)) (ps : List Packet) : Prop :=
  ∀ p ∈ ps, p.seq < msgs.length ∧ p.payload = msgs.getD p.seq []

instance (msgs : List (List Nat)) (ps : List Packet) :
    Decidable (Consistent msgs ps) := by
  unfold Consistent; infer_instance

/-- The delivery log is always `(0, msgs[0]), ..., (expected_seq - 1,
msgs[expected_seq - 1])`: a contiguous prefix starting at 0, each sequence
exactly once, in ascending order, carrying the admitted payloads. -/
def DeliveredInv (msgs : List (List Nat)) (s : ConnState) : Prop :=
  s.delivered = (List.range s.expectedSeq).map (fun i => (i, msgs.getD i [])) ∧
    s.expectedSeq ≤ msgs.length

/-- The four-packet witness stream: an out-of-order packet, the first message,
a duplicate of it, and the second message. -/
def witnessStream : List Packet :=
  [⟨1, 0, 0, 1, 0, 10, 0, [66]⟩, ⟨1, 0, 0, 0, 0, 10, 0, [65]⟩,
    ⟨1, 0, 0, 0, 0, 10, 0, [65]⟩, ⟨1, 0, 0, 1, 0, 10, 0, [66]⟩]

/-! ## Loss injector (`maybe_drop_packet`) -/

inductive LossProfile
  | clean
  | random
  | bursty
deriving DecidableEq

/-- The module globals `_burst_active` and `_burst_remaining` (a Python int,
so modelled as `Int`). -/
structure LossState where
  active : Bool
  remaining : Int
deriving DecidableEq

/-- `maybe_drop_packet`, as a function of the uniform draw
`r = random.random()` (a float in `[0,1)`, modelled as an exact rational; the
constants 0.02, 0.08, 0.10, 0.25 are likewise modelled as exact rationals),
the burst-length draw `draw = random.randint(3, 8)`, and the module-global
burst state.  In-burst: decrement the counter first, end the burst when it
reaches zero, and drop iff `r < 0.25`.  Outside a burst: drop on `r < 0.02`;
otherwise, on `r < 0.10`, arm a burst of length `draw` and return `r < 0.25`
(which is then always true). -/
def maybeDropPacket (profile : LossProfile) (r : ℚ) (draw : Nat)
    (st : LossState) : Bool × LossState :=
  match profile with
  | .clean => (false, st)
  | .random => (decide (r < 8/100), st)
  | .bursty =>
    if st.active then
      if st.remaining - 1 ≤ 0 then (decide (r < 1/4), ⟨false, st.remaining - 1⟩)
      else (decide (r < 1/4), ⟨true, st.remaining - 1⟩)
    else if r < 2/100 then (true, st)
    else if r < 1/10 then (decide (r < 1/4), ⟨true, (draw : Int)⟩)
    else (false, st)

/-- The amended description of the drop model: `clean` never drops; `random`
drops iff `r < 0.08`; `bursty` in a burst decrements the counter (the burst
ends when it falls to zero) and drops iff `r < 0.25`, and outside a burst
drops without arming on `r < 0.02`, or arms a burst of length `draw` and
drops that transmission on `0.02 <= r < 0.10` (the code returns `r < 0.25`,
which holds whenever `r < 0.10`), and otherwise passes. -/
def maybeDropAmended (profile : LossProfile) (r : ℚ) (draw : Nat)
    (st : LossState) : Bool × LossState :=
  match profile with
  | .clean => (false, st)
  | .random => (decide (r < 8/100), st)
  | .bursty =>
    if st.active then
      (decide (r < 1/4), ⟨decide (1 < st.remaining), st.remaining - 1⟩)
    else if r < 2/100 then (true, st)
    else if r < 1/10 then (true, ⟨true, (draw : Int)⟩)
    else (false, st)

/-! ## Zero-window clamp (`peer_recv_win` assignments) -/

/-- The `peer_recv_win` assignment performed by the handshake branches of
`_handle_handshake` (transport.py lines 155 and 167) and by the client
SYN-ACK branch of `_recv_loop` (line 239):
`self.peer_recv_win = pkt.recv_win if pkt.recv_win > 0 else 1`. -/
def handshakeWinUpdate (s : ConnState) (pkt : Packet) : ConnState :=
  { s with peerRecvWin := clampWin pkt.recvWin }

/-- States reachable from `__init__` under arbitrary incoming packets,
including the handshake updates of `peer_recv_win`. -/
inductive ReachableAny : ConnState → Prop
  | init : ReachableAny initState
  | send (s : ConnState) (d : List Nat) (n : Nat) :
      ReachableAny s → ReachableAny (step s (.send d n))
  | recvAck (s : ConnState) (p : Packet) (n : Nat) :
      ReachableAny s → ReachableAny (step s (.recvAck p n))
  | timerFire (s : ConnState) :
      ReachableAny s → ReachableAny (step s .timerFire)
  | handshake (s : ConnState) (pkt : Packet) :
      ReachableAny s → ReachableAny (handshakeWinUpdate s pkt)

/-- One per-client record of `server_multiplexed.ClientConnection`:
`recv_win = 10`, `peer_recv_win = 5` initially. -/
structure MuxClient where
  connId : Nat
  connected : Bool
  expectedSeq : Nat
  sendSeq : Nat
  recvWin : Nat
  peerRecvWin : Nat
deriving DecidableEq

def muxClientInit (connId : Nat) : MuxClient := ⟨connId, false, 0, 0, 10, 5⟩

/-- The ACK branch of `server_multiplexed.handle_handshake` (lines 130-137):
on a pending handshake it marks the client connected and assigns
`peer_recv_win = pkt.recv_win if pkt.recv_win > 0 else 1`. -/
def muxHandshakeAck (c : MuxClient) (pkt : Packet) : MuxClient :=
  if ¬ c.connected then
    { c with connected := true, peerRecvWin := clampWin pkt.recvWin }
  else c

/-! ## Theorems -/

theorem de16_digits (n : Nat) (h : n < 65536) : de16 (n / 256 % 256) (n % 256) = n := by
  simp only [de16]; omega

theorem de32_digits (n : Nat) (h : n < 4294967296) :
    de32 (n / 16777216 % 256) (n / 65536 % 256) (n / 256 % 256) (n % 256) = n := by
  simp only [de32]; omega

theorem headerBytes_length (ver flags connId seq ack recvWin length checksum : Nat) :
    (headerBytes ver flags connId seq ack recvWin length checksum).length = 20 := by
  simp [headerBytes, be16, be32]

theorem pack_length (p : Packet) : p.pack.length = 20 + p.payload.length := by
  simp [Packet.pack, headerBytes, be16, be32]; omega

theorem de16_hi (a b : Nat) (ha : a < 256) (hb : b < 256) : de16 a b / 256 % 256 = a := by
  simp only [de16]; omega

theorem de16_lo (a b : Nat) (hb : b < 256) : de16 a b % 256 = b := by
  simp only [de16]; omega

theorem de32_hi3 (a b c d : Nat) (ha : a < 256) (hb : b < 256) (hc : c < 256)
    (hd : d < 256) : de32 a b c d / 16777216 % 256 = a := by
  simp only [de32]; omega

theorem de32_hi2 (a b c d : Nat) (hb : b < 256) (hc : c < 256) (hd : d < 256) :
    de32 a b c d / 65536 % 256 = b := by
  simp only [de32]; omega

theorem de32_hi1 (a b c d : Nat) (hc : c < 256) (hd : d < 256) :
    de32 a b c d / 256 % 256 = c := by
  simp only [de32]; omega

theorem de32_lo (a b c d : Nat) (hd : d < 256) : de32 a b c d % 256 = d := by
  simp only [de32]; omega

theorem exists_cons20 (l : List Nat) (h : 20 ≤ l.length) :
    ∃ b0 b1 b2 b3 b4 b5 b6 b7 b8 b9 b10 b11 b12 b13 b14 b15 b16 b17 b18 b19 rest,
      l = b0 :: b1 :: b2 :: b3 :: b4 :: b5 :: b6 :: b7 :: b8 :: b9 :: b10 :: b11 ::
        b12 :: b13 :: b14 :: b15 :: b16 :: b17 :: b18 :: b19 :: rest := by
  rcases l with _ | ⟨b0, l⟩; · simp at h
  rcases l with _ | ⟨b1, l⟩; · simp at h
  rcases l with _ | ⟨b2, l⟩; · simp at h
  rcases l with _ | ⟨b3, l⟩; · simp at h
  rcases l with _ | ⟨b4, l⟩; · simp at h
  rcases l with _ | ⟨b5, l⟩; · simp at h
  rcases l with _ | ⟨b6, l⟩; · simp at h
  rcases l with _ | ⟨b7, l⟩; · simp at h
  rcases l with _ | ⟨b8, l⟩; · simp at h
  rcases l with _ | ⟨b9, l⟩; · simp at h
  rcases l with _ | ⟨b10, l⟩; · simp at h
  rcases l with _ | ⟨b11, l⟩; · simp at h
  rcases l with _ | ⟨b12, l⟩; · simp at h
  rcases l with _ | ⟨b13, l⟩; · simp at h
  rcases l with _ | ⟨b14, l⟩; · simp at h
  rcases l with _ | ⟨b15, l⟩; · simp at h
  rcases l with _ | ⟨b16, l⟩; · simp at h
  rcases l with _ | ⟨b17, l⟩; · simp at h
  rcases l with _ | ⟨b18, l⟩; · simp at h
  rcases l with _ | ⟨b19, l⟩; · simp at h
  exact ⟨b0, b1, b2, b3, b4, b5, b6, b7, b8, b9, b10, b11, b12, b13, b14, b15,
    b16, b17, b18, b19, l, rfl⟩

theorem unpack_short (data : List Nat) (h : data.length < 20) : unpack data = none := by
  rcases data with _ | ⟨b0, l⟩; · rfl
  rcases l with _ | ⟨b1, l⟩; · rfl
  rcases l with _ | ⟨b2, l⟩; · rfl
  rcases l with _ | ⟨b3, l⟩; · rfl
  rcases l with _ | ⟨b4, l⟩; · rfl
  rcases l with _ | ⟨b5, l⟩; · rfl
  rcases l with _ | ⟨b6, l⟩; · rfl
  rcases l with _ | ⟨b7, l⟩; · rfl
  rcases l with _ | ⟨b8, l⟩; · rfl
  rcases l with _ | ⟨b9, l⟩; · rfl
  rcases l with _ | ⟨b10, l⟩; · rfl
  rcases l with _ | ⟨b11, l⟩; · rfl
  rcases l with _ | ⟨b12, l⟩; · rfl
  rcases l with _ | ⟨b13, l⟩; · rfl
  rcases l with _ | ⟨b14, l⟩; · rfl
  rcases l with _ | ⟨b15, l⟩; · rfl
  rcases l with _ | ⟨b16, l⟩; · rfl
  rcases l with _ | ⟨b17, l⟩; · rfl
  rcases l with _ | ⟨b18, l⟩; · rfl
  rcases l with _ | ⟨b19, l⟩; · rfl
  simp at h; omega

/-- Core decode characterization: on byte input, `unpack` fails exactly on
short input or a checksum mismatch, where the recomputed checksum is the
decoder-independent arithmetic of `recomputedChecksum` (which ignores the
stored length field, bytes 14-15). -/
theorem unpack_none_iff_core (data : List Nat) (hb : ∀ x ∈ data, x < 256) :
    unpack data = none ↔
      data.length < 20 ∨ recomputedChecksum data ≠ storedChecksum data := by
  by_cases hlen : data.length < 20
  · simp [unpack_short data hlen, hlen]
  · push_neg at hlen
    obtain ⟨b0, b1, b2, b3, b4, b5, b6, b7, b8, b9, b10, b11, b12, b13, b14, b15,
      b16, b17, b18, b19, rest, rfl⟩ := exists_cons20 data hlen
    have h0 : b0 < 256 := hb _ (by simp)
    have h1 : b1 < 256 := hb _ (by simp)
    have h2 : b2 < 256 := hb _ (by simp)
    have h3 : b3 < 256 := hb _ (by simp)
    have h4 : b4 < 256 := hb _ (by simp)
    have h5 : b5 < 256 := hb _ (by simp)
    have h6 : b6 < 256 := hb _ (by simp)
    have h7 : b7 < 256 := hb _ (by simp)
    have h8 : b8 < 256 := hb _ (by simp)
    have h9 : b9 < 256 := hb _ (by simp)
    have h10 : b10 < 256 := hb _ (by simp)
    have h11 : b11 < 256 := hb _ (by simp)
    have h12 : b12 < 256 := hb _ (by simp)
    have h13 : b13 < 256 := hb _ (by simp)
    have hcc : computeChecksum ⟨b0, b1, de16 b2 b3, de32 b4 b5 b6 b7,
        de32 b8 b9 b10 b11, de16 b12 b13, 0, rest⟩ =
        recomputedChecksum (b0 :: b1 :: b2 :: b3 :: b4 :: b5 :: b6 :: b7 :: b8 ::
          b9 :: b10 :: b11 :: b12 :: b13 :: b14 :: b15 :: b16 :: b17 :: b18 ::
          b19 :: rest) := by
      have hlen2 : (b0 :: b1 :: b2 :: b3 :: b4 :: b5 :: b6 :: b7 :: b8 :: b9 ::
          b10 :: b11 :: b12 :: b13 :: b14 :: b15 :: b16 :: b17 :: b18 :: b19 ::
          rest).length - 20 = rest.length := by simp
      simp only [computeChecksum, headerBytes, be16, be32, List.cons_append,
        List.nil_append, recomputedChecksum, hlen2]
      rw [de16_hi b2 b3 h2 h3, de16_lo b2 b3 h3, de16_hi b12 b13 h12 h13,
        de16_lo b12 b13 h13, de32_hi3 b4 b5 b6 b7 h4 h5 h6 h7,
        de32_hi2 b4 b5 b6 b7 h5 h6 h7, de32_hi1 b4 b5 b6 b7 h6 h7,
        de32_lo b4 b5 b6 b7 h7, de32_hi3 b8 b9 b10 b11 h8 h9 h10 h11,
        de32_hi2 b8 b9 b10 b11 h9 h10 h11, de32_hi1 b8 b9 b10 b11 h10 h11,
        de32_lo b8 b9 b10 b11 h11]
      simp only [List.take, List.sum_cons, List.sum_nil, List.drop]
      omega
    have hstored : storedChecksum (b0 :: b1 :: b2 :: b3 :: b4 :: b5 :: b6 :: b7 ::
        b8 :: b9 :: b10 :: b11 :: b12 :: b13 :: b14 :: b15 :: b16 :: b17 :: b18 ::
        b19 :: rest) = de32 b16 b17 b18 b19 := rfl
    rw [unpack, hcc, hstored]
    split_ifs with hc
    · simp only [reduceCtorEq, false_iff, not_or, not_not]
      exact ⟨by omega, hc⟩
    · simp only [true_iff]
      exact Or.inr hc

/-- Round-trip core: decoding a packed well-formed packet restores every header
field and the payload; the checksum attribute of the decoded packet is the
recomputed checksum `pack` wrote into the wire image. -/
theorem unpack_pack_core (p : Packet) (hp : WellFormed p) :
    unpack p.pack = some { p with checksum := computeChecksum p } := by
  obtain ⟨h1, h2, h3, h4, h5, h6, h7, h8, h9⟩ := hp
  have hcs : computeChecksum p < 4294967296 := Nat.mod_lt _ (by norm_num)
  have hcsd0 : computeChecksum p / 16777216 % 256 < 256 := Nat.mod_lt _ (by norm_num)
  have hcsd1 : computeChecksum p / 65536 % 256 < 256 := Nat.mod_lt _ (by norm_num)
  have hcsd2 : computeChecksum p / 256 % 256 < 256 := Nat.mod_lt _ (by norm_num)
  have hcsd3 : computeChecksum p % 256 < 256 := Nat.mod_lt _ (by norm_num)
  simp only [Packet.pack, headerBytes, be16, be32, List.cons_append, List.nil_append]
  rw [unpack, Nat.mod_eq_of_lt h1, Nat.mod_eq_of_lt h2,
    de16_digits p.connId h3, de16_digits p.recvWin h6, de32_digits p.seq h4,
    de32_digits p.ack h5, de32_digits (computeChecksum p) hcs]
  have hfields : computeChecksum ⟨p.ver, p.flags, p.connId, p.seq, p.ack,
      p.recvWin, 0, p.payload⟩ = computeChecksum p := rfl
  rw [if_pos hfields]

theorem take_set_of_le (l : List Nat) (i b n : Nat) (h : n ≤ i) :
    (l.set i b).take n = l.take n := by
  induction l generalizing i n with
  | nil => simp
  | cons a t ih =>
    cases i with
    | zero =>
      have : n = 0 := by omega
      simp [this]
    | succ i =>
      cases n with
      | zero => simp
      | succ n => simp [List.set_cons_succ, ih i n (by omega)]

theorem take_set_of_lt (l : List Nat) (i b n : Nat) (h : i < n) :
    (l.set i b).take n = (l.take n).set i b := by
  induction l generalizing i n with
  | nil => simp
  | cons a t ih =>
    cases i with
    | zero =>
      cases n with
      | zero => omega
      | succ n => simp
    | succ i =>
      cases n with
      | zero => omega
      | succ n => simp [List.set_cons_succ, ih i n (by omega)]

theorem getD_set_ne (l : List Nat) (i j b d : Nat) (h : i ≠ j) :
    (l.set i b).getD j d = l.getD j d := by
  simp [List.getD_eq_getElem?_getD, List.getElem?_set_ne h]

theorem getD_set_self (l : List Nat) (i b d : Nat) (h : i < l.length) :
    (l.set i b).getD i d = b := by
  simp [List.getD_eq_getElem?_getD, List.getElem?_set_self h]

theorem getD_take (l : List Nat) (n i d : Nat) (h : i < n) :
    (l.take n).getD i d = l.getD i d := by
  simp [List.getD_eq_getElem?_getD, List.getElem?_take, h]

theorem getD_drop (l : List Nat) (n i d : Nat) :
    (l.drop n).getD i d = l.getD (n + i) d := by
  simp [List.getD_eq_getElem?_getD, List.getElem?_drop]

theorem sum_set_nat (l : List Nat) (i b : Nat) (h : i < l.length) :
    (l.set i b).sum + l.getD i 0 = l.sum + b := by
  rw [List.sum_set, if_pos h]
  have h1 : (l.take i).sum + (l.drop i).sum = l.sum := List.sum_take_add_sum_drop l i
  rw [List.drop_eq_getElem_cons h] at h1
  rw [List.getD_eq_getElem l 0 h]
  simp only [List.sum_cons] at h1
  omega

theorem pack_bytes_lt (p : Packet) (hp : WellFormed p) : ∀ x ∈ p.pack, x < 256 := by
  obtain ⟨h1, h2, h3, h4, h5, h6, h7, h8, h9⟩ := hp
  intro x hx
  rw [Packet.pack, List.mem_append] at hx
  rcases hx with hx | hx
  · simp [headerBytes, be16, be32] at hx
    omega
  · exact h8 x hx

theorem pack_checksum_valid (p : Packet) (hp : WellFormed p) :
    recomputedChecksum p.pack = storedChecksum p.pack := by
  have hiff := unpack_none_iff_core p.pack (pack_bytes_lt p hp)
  rw [unpack_pack_core p hp] at hiff
  simp only [reduceCtorEq, false_iff, not_or, not_not] at hiff
  exact hiff.2

/-- Corrupting one byte of a packed well-formed packet is detected by the
checksum exactly when the byte is outside the stored length field
(offsets 14-15): the decoder never reads that field. -/
theorem mutation_core (p : Packet) (hp : WellFormed p) (i b : Nat)
    (hi : i < p.pack.length) (hb256 : b < 256) (hbne : b ≠ p.pack.getD i 0) :
    (unpack (p.pack.set i b) = none ↔ ¬(i = 14 ∨ i = 15)) := by
  have hbytes : ∀ x ∈ p.pack, x < 256 := pack_bytes_lt p hp
  have hbytes2 : ∀ x ∈ p.pack.set i b, x < 256 := by
    intro x hx
    rcases List.mem_or_eq_of_mem_set hx with hx | rfl
    · exact hbytes x hx
    · exact hb256
  have hplen : p.pack.length = 20 + p.payload.length := pack_length p
  have hold : p.pack.getD i 0 < 256 := by
    have hm : p.pack.getD i 0 ∈ p.pack := by
      rw [List.getD_eq_getElem _ _ hi]; exact List.getElem_mem hi
    exact hbytes _ hm
  have hvalid : recomputedChecksum p.pack = storedChecksum p.pack :=
    pack_checksum_valid p hp
  rw [unpack_none_iff_core _ hbytes2, List.length_set]
  by_cases h1415 : i = 14 ∨ i = 15
  · have hrec : recomputedChecksum (p.pack.set i b) = recomputedChecksum p.pack := by
      unfold recomputedChecksum
      rw [take_set_of_le _ _ _ _ (by omega), List.length_set, List.drop_set,
        if_pos (by omega : i < 20)]
    have hst : storedChecksum (p.pack.set i b) = storedChecksum p.pack := by
      unfold storedChecksum
      rw [getD_set_ne _ _ _ _ _ (by omega), getD_set_ne _ _ _ _ _ (by omega),
        getD_set_ne _ _ _ _ _ (by omega), getD_set_ne _ _ _ _ _ (by omega)]
    simp only [hrec, hst, hvalid, ne_eq, not_true_eq_false, or_false, h1415,
      not_true_eq_false, iff_false]
    omega
  · have hmain : recomputedChecksum (p.pack.set i b) ≠
        storedChecksum (p.pack.set i b) := by
      rcases Nat.lt_or_ge i 14 with hA | hge14
      · -- header byte left of the length field
        have htake : (p.pack.set i b).take 14 = (p.pack.take 14).set i b :=
          take_set_of_lt _ _ _ _ hA
        have hsum : ((p.pack.take 14).set i b).sum + (p.pack.take 14).getD i 0 =
            (p.pack.take 14).sum + b := by
          refine sum_set_nat _ _ _ ?_
          rw [List.length_take]; omega
        have hgd : (p.pack.take 14).getD i 0 = p.pack.getD i 0 :=
          getD_take _ _ _ _ hA
        have hdrop : (p.pack.set i b).drop 20 = p.pack.drop 20 := by
          rw [List.drop_set, if_pos (by omega : i < 20)]
        have hst : storedChecksum (p.pack.set i b) = storedChecksum p.pack := by
          unfold storedChecksum
          rw [getD_set_ne _ _ _ _ _ (by omega), getD_set_ne _ _ _ _ _ (by omega),
            getD_set_ne _ _ _ _ _ (by omega), getD_set_ne _ _ _ _ _ (by omega)]
        rw [hst]
        unfold recomputedChecksum at hvalid ⊢
        rw [htake, hdrop, List.length_set]
        omega
      · rcases Nat.lt_or_ge i 20 with hB | hC
        · -- a byte of the stored checksum field (offsets 16-19)
          have h16 : 16 ≤ i := by omega
          have hrec : recomputedChecksum (p.pack.set i b) =
              recomputedChecksum p.pack := by
            unfold recomputedChecksum
            rw [take_set_of_le _ _ _ _ (by omega), List.length_set, List.drop_set,
              if_pos (by omega : i < 20)]
          have hg16 : p.pack.getD 16 0 < 256 := by
            have hm : p.pack.getD 16 0 ∈ p.pack := by
              rw [List.getD_eq_getElem _ _ (by omega)]
              exact List.getElem_mem (by omega)
            exact hbytes _ hm
          have hg17 : p.pack.getD 17 0 < 256 := by
            have hm : p.pack.getD 17 0 ∈ p.pack := by
              rw [List.getD_eq_getElem _ _ (by omega)]
              exact List.getElem_mem (by omega)
            exact hbytes _ hm
          have hg18 : p.pack.getD 18 0 < 256 := by
            have hm : p.pack.getD 18 0 ∈ p.pack := by
              rw [List.getD_eq_getElem _ _ (by omega)]
              exact List.getElem_mem (by omega)
            exact hbytes _ hm
          have hg19 : p.pack.getD 19 0 < 256 := by
            have hm : p.pack.getD 19 0 ∈ p.pack := by
              rw [List.getD_eq_getElem _ _ (by omega)]
              exact List.getElem_mem (by omega)
            exact hbytes _ hm
          rw [hrec, hvalid]
          unfold storedChecksum
          interval_cases i
          · rw [getD_set_self _ _ _ _ (by omega), getD_set_ne _ _ _ _ _ (by omega),
              getD_set_ne _ _ _ _ _ (by omega), getD_set_ne _ _ _ _ _ (by omega)]
            simp only [de32] at hbne ⊢
            omega
          · rw [getD_set_ne _ _ _ _ _ (by omega), getD_set_self _ _ _ _ (by omega),
              getD_set_ne _ _ _ _ _ (by omega), getD_set_ne _ _ _ _ _ (by omega)]
            simp only [de32] at hbne ⊢
            omega
          · rw [getD_set_ne _ _ _ _ _ (by omega), getD_set_ne _ _ _ _ _ (by omega),
              getD_set_self _ _ _ _ (by omega), getD_set_ne _ _ _ _ _ (by omega)]
            simp only [de32] at hbne ⊢
            omega
          · rw [getD_set_ne _ _ _ _ _ (by omega), getD_set_ne _ _ _ _ _ (by omega),
              getD_set_ne _ _ _ _ _ (by omega), getD_set_self _ _ _ _ (by omega)]
            simp only [de32] at hbne ⊢
            omega
        · -- a payload byte
          have htake : (p.pack.set i b).take 14 = p.pack.take 14 :=
            take_set_of_le _ _ _ _ (by omega)
          have hdrop : (p.pack.set i b).drop 20 = (p.pack.drop 20).set (i - 20) b := by
            rw [List.drop_set, if_neg (by omega)]
          have hsum : ((p.pack.drop 20).set (i - 20) b).sum +
              (p.pack.drop 20).getD (i - 20) 0 = (p.pack.drop 20).sum + b := by
            refine sum_set_nat _ _ _ ?_
            rw [List.length_drop]; omega
          have hgd : (p.pack.drop 20).getD (i - 20) 0 = p.pack.getD i 0 := by
            rw [getD_drop]; congr 1; omega
          have hst : storedChecksum (p.pack.set i b) = storedChecksum p.pack := by
            unfold storedChecksum
            rw [getD_set_ne _ _ _ _ _ (by omega), getD_set_ne _ _ _ _ _ (by omega),
              getD_set_ne _ _ _ _ _ (by omega), getD_set_ne _ _ _ _ _ (by omega)]
          rw [hst]
          unfold recomputedChecksum at hvalid ⊢
          rw [htake, hdrop, List.length_set]
          omega
    exact ⟨fun _ => h1415, fun _ => Or.inr hmain⟩

/-- C3 (amended): `unpack` fails exactly when the input is shorter than the
20-byte header or the stored checksum (bytes 16-19) disagrees with the
checksum recomputed over the first 14 header bytes, the big-endian digits of
the actual payload byte count, and the payload.  The stored length field
(bytes 14-15) is never compared against the payload length: the constructor
discards it, so strict length decoding does not happen. -/
theorem unpack_failure_characterization (data : List Nat)
    (hb : ∀ x ∈ data, x < 256) :
    unpack data = none ↔
      data.length < 20 ∨ recomputedChecksum data ≠ storedChecksum data :=
  unpack_none_iff_core data hb

theorem unpack_failure_characterization_witness :
    (∀ x ∈ [1, 2, 3], x < 256) ∧
      (unpack [1, 2, 3] = none ↔
        ([1, 2, 3] : List Nat).length < 20 ∨
          recomputedChecksum [1, 2, 3] ≠ storedChecksum [1, 2, 3]) :=
  ⟨by decide, unpack_failure_characterization [1, 2, 3] (by decide)⟩

/-- C3 counterexample: a wire image whose stored length field (bytes 14-15,
value 2) differs from the actual payload byte count (1) is nevertheless
accepted by `unpack`, because the checksum is recomputed from the actual
payload length.  The claim's "strict decoding" failure does not occur. -/
theorem length_mismatch_accepted :
    unpack [1, 0, 0, 0, 0, 0, 0, 0, 0, 0, 0, 0, 0, 0, 0, 2, 0, 0, 0, 67, 65] ≠
        none ∧
      de16 0 2 ≠
        (List.drop 20
          [1, 0, 0, 0, 0, 0, 0, 0, 0, 0, 0, 0, 0, 0, 0, 2, 0, 0, 0, 67,
            65]).length := by
  decide

/-- C4 (amended): decoding a packed well-formed packet restores it exactly;
mutating any single byte of the serialized form at an offset other than the
stored length field (offsets 14-15) makes `unpack` fail the integrity check,
while a mutation inside the length field is accepted because the decoder
ignores that field. -/
theorem codec_roundtrip_mutation (p : Packet) (hp : WellFormed p) :
    unpack p.pack = some p ∧
    ∀ i b, i < p.pack.length → b < 256 → b ≠ p.pack.getD i 0 →
      ((i = 14 ∨ i = 15) → unpack (p.pack.set i b) ≠ none) ∧
      (¬(i = 14 ∨ i = 15) → unpack (p.pack.set i b) = none) := by
  constructor
  · have h := unpack_pack_core p hp
    have h9 : p.checksum = computeChecksum p := hp.2.2.2.2.2.2.2.2
    rw [h, ← h9]
  · intro i b hi hb hne
    have hiff := mutation_core p hp i b hi hb hne
    exact ⟨fun h14 hnone => (hiff.mp hnone) h14, hiff.mpr⟩

theorem codec_roundtrip_mutation_witness :
    WellFormed ⟨1, 0, 5, 2, 3, 4,
        computeChecksum ⟨1, 0, 5, 2, 3, 4, 0, [65, 66]⟩, [65, 66]⟩ ∧
      unpack (Packet.pack ⟨1, 0, 5, 2, 3, 4,
          computeChecksum ⟨1, 0, 5, 2, 3, 4, 0, [65, 66]⟩, [65, 66]⟩) =
        some ⟨1, 0, 5, 2, 3, 4,
          computeChecksum ⟨1, 0, 5, 2, 3, 4, 0, [65, 66]⟩, [65, 66]⟩ :=
  ⟨by decide, (codec_roundtrip_mutation _ (by decide)).1⟩

/-- C4 counterexample: for a concrete well-formed packet, overwriting byte 15
(the low byte of the stored length field) with a different value is accepted
by `unpack`, refuting the claim that every single-byte mutation of the
serialized form fails the integrity check. -/
theorem length_byte_mutation_accepted :
    WellFormed ⟨1, 0, 0, 0, 0, 0, computeChecksum ⟨1, 0, 0, 0, 0, 0, 0, [65]⟩,
        [65]⟩ ∧
      (2 : Nat) ≠ (Packet.pack ⟨1, 0, 0, 0, 0, 0,
        computeChecksum ⟨1, 0, 0, 0, 0, 0, 0, [65]⟩, [65]⟩).getD 15 0 ∧
      unpack ((Packet.pack ⟨1, 0, 0, 0, 0, 0,
        computeChecksum ⟨1, 0, 0, 0, 0, 0, 0, [65]⟩, [65]⟩).set 15 2) ≠ none := by
  decide

/-! ## Dictionary and window lemmas -/

theorem lookupKey_eq_none (m : UnackedMap) (k : Nat)
    (h : k ∉ m.map (fun e => e.1)) : lookupKey k m = none := by
  induction m with
  | nil => rfl
  | cons e t ih =>
    simp only [List.map_cons, List.mem_cons] at h
    push_neg at h
    rw [lookupKey, if_neg (by omega), ih h.2]

theorem dictInsert_fresh (m : UnackedMap) (k : Nat) (v : Packet × Nat)
    (h : k ∉ m.map (fun e => e.1)) : dictInsert k v m = m ++ [(k, v)] := by
  rw [dictInsert, lookupKey_eq_none m k h]
  rfl

theorem lookupKey_dictInsert (m : UnackedMap) (k : Nat) (v : Packet × Nat) :
    lookupKey k (dictInsert k v m) = some v := by
  rw [dictInsert]
  split_ifs with h
  · induction m with
    | nil => simp [lookupKey] at h
    | cons e t ih =>
      by_cases he : e.1 = k
      · simp [lookupKey, he]
      · simp only [List.map_cons, if_neg he]
        rw [lookupKey, if_neg he]
        rw [lookupKey, if_neg he] at h
        exact ih h
  · induction m with
    | nil => simp [lookupKey]
    | cons e t ih =>
      have he : e.1 ≠ k := by
        intro hek
        apply h
        rw [lookupKey, if_pos hek]
        rfl
      rw [List.cons_append, lookupKey, if_neg he]
      apply ih
      intro h2
      apply h
      rw [lookupKey, if_neg he]
      exact h2

theorem range'_drop (s n k : Nat) :
    (List.range' s n).drop k = List.range' (s + k) (n - k) := by
  induction n generalizing s k with
  | zero => simp
  | succ n ih =>
    cases k with
    | zero => simp
    | succ k =>
      rw [List.range'_succ]
      simp only [List.drop_succ_cons]
      rw [ih (s + 1) k]
      congr 1 <;> omega

/-- Splitting lemma for the pop loop: on a map whose keys are exactly
`range' lo n` (in order), popping `k` keys upward from `lo` removes the first
`k` entries and appends one RTT sample per popped entry. -/
theorem popRange_eq (k : Nat) : ∀ (m : UnackedMap) (smp : List Int) (lo n now : Nat),
    m.map (fun e => e.1) = List.range' lo n →
    popRange m smp lo k now =
      (m.drop k, smp ++ (m.take k).map (fun e => (now : Int) - (e.2.2 : Int))) := by
  induction k with
  | zero => intro m smp lo n now h; simp [popRange]
  | succ k ih =>
    intro m smp lo n now h
    cases m with
    | nil =>
      have hd : dictPop lo ([] : UnackedMap) = (none, []) := rfl
      rw [popRange, hd]
      dsimp only
      rw [ih [] smp (lo + 1) 0 now (by simp)]
      simp
    | cons e t =>
      cases n with
      | zero => simp at h
      | succ n =>
        rw [List.range'_succ] at h
        simp only [List.map_cons, List.cons.injEq] at h
        obtain ⟨he, ht⟩ := h
        have hfilter : t.filter (fun x => decide (x.1 ≠ lo)) = t := by
          rw [List.filter_eq_self]
          intro a ha
          have : a.1 ∈ List.range' (lo + 1) n := by
            rw [← ht]; exact List.mem_map_of_mem _ ha
          rw [List.mem_range'_1] at this
          simp only [ne_eq, decide_eq_true_eq]
          omega
        have hd : dictPop lo (e :: t) = (some e.2, t) := by
          rw [dictPop, lookupKey, if_pos he, List.filter_cons]
          have hdec : (decide (e.1 ≠ lo)) = false := by simp [he]
          rw [hdec]
          simp only [Bool.false_eq_true, if_false]
          rw [hfilter]
        rw [popRange, hd]
        dsimp only
        rw [ih t (smp ++ [(now : Int) - (e.2.2 : Int)]) (lo + 1) n now ht]
        simp

theorem fullInv_senderInv (s : ConnState) (h : FullInv s) : SenderInv s := by
  obtain ⟨h1, h2, h3⟩ := h
  refine ⟨h1, ?_, h3⟩
  have := congrArg List.length h2
  simpa [List.length_range'] using this

theorem fullInv_send (s : ConnState) (d : List Nat) (n : Nat) (h : FullInv s) :
    FullInv (step s (.send d n)) := by
  obtain ⟨h1, h2, h3⟩ := h
  rw [step, sendMsg]
  by_cases hadm : s.nextSeq < s.sendBase + min s.windowSize s.peerRecvWin
  · rw [if_pos hadm]
    have hfresh : s.nextSeq ∉ s.unacked.map (fun e => e.1) := by
      rw [h2, List.mem_range'_1]
      omega
    refine ⟨?_, ?_, ?_⟩
    · show s.sendBase ≤ s.nextSeq + 1
      omega
    · show (dictInsert s.nextSeq (sendPacket s d, n) s.unacked).map (fun e => e.1) =
        List.range' s.sendBase (s.nextSeq + 1 - s.sendBase)
      rw [dictInsert_fresh _ _ _ hfresh, List.map_append, h2]
      rw [show s.nextSeq + 1 - s.sendBase = (s.nextSeq - s.sendBase) + 1 by omega]
      rw [List.range'_concat s.sendBase (s.nextSeq - s.sendBase)]
      congr 1
      simp only [List.map_cons, List.map_nil, List.cons.injEq, and_true]
      omega
    · show s.nextSeq + 1 - s.sendBase ≤ min s.windowSize s.peerRecvWin
      omega
  · rw [if_neg hadm]
    exact ⟨h1, h2, h3⟩

theorem fullInv_recvAck (s : ConnState) (p : Packet) (n : Nat) (h : FullInv s)
    (hc : ConformingAck s p) : FullInv (step s (.recvAck p n)) := by
  obtain ⟨h1, h2, h3⟩ := h
  obtain ⟨hc1, hc2⟩ := hc
  rw [step, processAck]
  by_cases hack : s.sendBase < p.ack
  · rw [if_pos hack]
    have hpop := popRange_eq (p.ack - s.sendBase) s.unacked s.metrics.rttSamples
      s.sendBase (s.nextSeq - s.sendBase) n h2
    refine ⟨?_, ?_, ?_⟩
    · show p.ack ≤ s.nextSeq
      exact hc1
    · show ((popRange s.unacked s.metrics.rttSamples s.sendBase
          (p.ack - s.sendBase) n).1).map (fun e => e.1) =
        List.range' p.ack (s.nextSeq - p.ack)
      rw [hpop]
      simp only
      rw [List.map_drop, h2, range'_drop]
      congr 1 <;> omega
    · show s.nextSeq - p.ack ≤ min s.windowSize (clampWin p.recvWin)
      omega
  · rw [if_neg hack]
    exact ⟨h1, h2, h3⟩

theorem fullInv_timerFire (s : ConnState) (h : FullInv s) :
    FullInv (step s .timerFire) := by
  obtain ⟨h1, h2, h3⟩ := h
  exact ⟨h1, h2, h3⟩

theorem fullInv_reachable (s : ConnState) (h : ReachableConforming s) :
    FullInv s := by
  induction h with
  | init => exact ⟨by decide, by decide, by decide⟩
  | send s d n _ ih => exact fullInv_send s d n ih
  | recvAck s p n _ hc ih => exact fullInv_recvAck s p n ih hc
  | timerFire s _ ih => exact fullInv_timerFire s ih

/-- C5 (amended): every state reachable through send admissions,
retransmissions, and ACK processing of packets whose cumulative `ack` does not
exceed `next_seq` and whose zero-clamped advertised window is at least
`window_size` (the shape of the peer's data ACKs) satisfies
`send_base <= next_seq`, `|unacked| = next_seq - send_base`, and
`next_seq - send_base <= min(window_size, peer_recv_win)`, and those
operations preserve the invariants.  The claimed invariants do not hold in
every reachable endpoint state, however: the client's final handshake ACK
(`ack = 1`) reaches the responder's ACK block while `next_seq = 0` and leaves
`send_base = 1 > next_seq = 0`, so the breach occurs even in this codebase's
own handshake (see `handshake_ack_breaks_invariant`). -/
theorem sender_invariant_reachable (s : ConnState) (h : ReachableConforming s) :
    SenderInv s :=
  fullInv_senderInv s (fullInv_reachable s h)

theorem sender_invariant_reachable_witness :
    SenderInv (step initState (Event.send [1] 0)) :=
  sender_invariant_reachable _
    (ReachableConforming.send initState [1] 0 ReachableConforming.init)

/-- C5 counterexample: the invariant breach is reachable in an honest run of
this codebase's own handshake, with no forged packets.  A responder endpoint
in its initial state (`send_base = next_seq = 0`) receives the client's final
handshake ACK (`flags = ACK` only, `seq = 1`, `ack = 1`, `recv_win = 10`):
the packet carries no SYN, so `_recv_loop` skips the handshake branch; the
`not connected and not is_server` guard passes on the server side; the
payload is empty, so the data block is skipped; and `ack = 1 > send_base = 0`
sends it through the ACK-processing block, which sets
`send_base = 1 > next_seq = 0` and starts the timer.  ACK processing thus
violates `send_base <= next_seq` on a packet the real peer sends. -/
theorem handshake_ack_breaks_invariant :
    SenderInv initState ∧
      (clientFinalAck 7 0 10).ack = 1 ∧
      ¬ SenderInv (processAck initState (clientFinalAck 7 0 10) 0) ∧
      (processAck initState (clientFinalAck 7 0 10) 0).sendBase = 1 ∧
      (processAck initState (clientFinalAck 7 0 10) 0).nextSeq = 0 ∧
      (processAck initState (clientFinalAck 7 0 10) 0).timerRunning = true := by
  decide

/-- C6: on a state whose `unacked` keys are the outstanding window (true in
every reachable state), a packet with `ack <= send_base` changes nothing at
all, while a packet with `ack > send_base` pops every entry with sequence in
`[send_base, ack)` (the first `ack - send_base` entries in ascending order),
appends exactly one RTT sample `now - send_timestamp` per popped entry,
sets `send_base = ack`, and cancels the timer iff `ack = next_seq`. -/
theorem ack_advances_window (s : ConnState) (pkt : Packet) (now : Nat)
    (hkeys : s.unacked.map (fun e => e.1) =
      List.range' s.sendBase (s.nextSeq - s.sendBase)) :
    (pkt.ack ≤ s.sendBase → processAck s pkt now = s) ∧
    (s.sendBase < pkt.ack →
      (processAck s pkt now).sendBase = pkt.ack ∧
      (processAck s pkt now).unacked = s.unacked.drop (pkt.ack - s.sendBase) ∧
      (processAck s pkt now).metrics.rttSamples = s.metrics.rttSamples ++
        (s.unacked.take (pkt.ack - s.sendBase)).map
          (fun e => (now : Int) - (e.2.2 : Int)) ∧
      (processAck s pkt now).timerRunning =
        (if pkt.ack = s.nextSeq then false else true)) := by
  constructor
  · intro hle
    rw [processAck, if_neg (by omega)]
  · intro hgt
    rw [processAck, if_pos hgt]
    have hpop := popRange_eq (pkt.ack - s.sendBase) s.unacked s.metrics.rttSamples
      s.sendBase (s.nextSeq - s.sendBase) now hkeys
    refine ⟨rfl, ?_, ?_, rfl⟩
    · show (popRange s.unacked s.metrics.rttSamples s.sendBase
        (pkt.ack - s.sendBase) now).1 = _
      rw [hpop]
    · show (popRange s.unacked s.metrics.rttSamples s.sendBase
        (pkt.ack - s.sendBase) now).2 = _
      rw [hpop]

theorem ack_advances_window_witness :
    twoOutstanding.unacked.map (fun e => e.1) =
      List.range' twoOutstanding.sendBase
        (twoOutstanding.nextSeq - twoOutstanding.sendBase) ∧
    (processAck twoOutstanding ⟨1, 16, 7, 0, 1, 10, 0, []⟩ 9).sendBase = 1 :=
  ⟨by decide, ((ack_advances_window _ _ 9 (by decide)).2 (by decide)).1⟩

theorem filterMap_lookup_self (m : UnackedMap)
    (hnd : (m.map (fun e => e.1)).Nodup) :
    (m.map (fun e => e.1)).filterMap
      (fun q => (lookupKey q m).map (fun e => e.1)) = m.map (fun e => e.2.1) := by
  induction m with
  | nil => rfl
  | cons e t ih =>
    simp only [List.map_cons, List.nodup_cons] at hnd
    obtain ⟨hne, hnd2⟩ := hnd
    have h1 : lookupKey e.1 (e :: t) = some e.2 := by rw [lookupKey, if_pos rfl]
    simp only [List.map_cons, List.filterMap_cons, h1, Option.map_some']
    congr 1
    rw [List.filterMap_congr (g := fun q => (lookupKey q t).map (fun e => e.1))]
    · exact ih hnd2
    · intro q hq
      have hqe : e.1 ≠ q := by
        intro he
        exact hne (he ▸ hq)
      rw [lookupKey, if_neg hqe]

/-- C7: on a state whose `unacked` keys are the outstanding window (true in
every reachable state), timer expiry retransmits exactly the packets of
`unacked`, in ascending sequence order (the whole outstanding window
`send_base .. next_seq - 1`), adds the number of packets resent to the
retransmission counter and their payload bytes to `bytes_resent`, restarts
the timer, and leaves the window state itself unchanged. -/
theorem timeout_retransmits_window (s : ConnState)
    (hkeys : s.unacked.map (fun e => e.1) =
      List.range' s.sendBase (s.nextSeq - s.sendBase)) :
    (timeoutStep s).2 = s.unacked.map (fun e => e.2.1) ∧
    (timeoutStep s).1.metrics.retransmissions =
      s.metrics.retransmissions + s.unacked.length ∧
    (timeoutStep s).1.metrics.bytesResent = s.metrics.bytesResent +
      (s.unacked.map (fun e => e.2.1.payload.length)).sum ∧
    (timeoutStep s).1.timerRunning = true ∧
    (timeoutStep s).1.sendBase = s.sendBase ∧
    (timeoutStep s).1.nextSeq = s.nextSeq ∧
    (timeoutStep s).1.unacked = s.unacked := by
  have hnd : (s.unacked.map (fun e => e.1)).Nodup := by
    rw [hkeys]
    exact List.nodup_range' _ _
  have htxs : (List.range' s.sendBase (s.nextSeq - s.sendBase)).filterMap
      (fun q => (lookupKey q s.unacked).map (fun e => e.1)) =
      s.unacked.map (fun e => e.2.1) := by
    rw [← hkeys]
    exact filterMap_lookup_self s.unacked hnd
  refine ⟨?_, ?_, ?_, ?_, ?_, ?_, ?_⟩
  · exact htxs
  · have e1 : (timeoutStep s).1.metrics.retransmissions =
        s.metrics.retransmissions +
          ((List.range' s.sendBase (s.nextSeq - s.sendBase)).filterMap
            (fun q => (lookupKey q s.unacked).map (fun e => e.1))).length := rfl
    rw [e1, htxs, List.length_map]
  · have e2 : (timeoutStep s).1.metrics.bytesResent =
        s.metrics.bytesResent +
          (((List.range' s.sendBase (s.nextSeq - s.sendBase)).filterMap
            (fun q => (lookupKey q s.unacked).map (fun e => e.1))).map
              (fun p => p.payload.length)).sum := rfl
    rw [e2, htxs, List.map_map]
    rfl
  · exact rfl
  · exact rfl
  · exact rfl
  · exact rfl

theorem timeout_retransmits_window_witness :
    twoOutstanding.unacked.map (fun e => e.1) =
      List.range' twoOutstanding.sendBase
        (twoOutstanding.nextSeq - twoOutstanding.sendBase) ∧
    (timeoutStep twoOutstanding).2 = twoOutstanding.unacked.map (fun e => e.2.1) :=
  ⟨by decide, (timeout_retransmits_window _ (by decide)).1⟩

/-- C8 (amended): `peer_recv_win` is updated from a packet (with the zero
clamp) only when that packet advances the window (`ack > send_base`); a
duplicate ACK with `ack <= send_base` leaves `peer_recv_win` unchanged. -/
theorem peer_window_update_conditional (s : ConnState) (pkt : Packet) (now : Nat) :
    (s.sendBase < pkt.ack →
      (processAck s pkt now).peerRecvWin = clampWin pkt.recvWin) ∧
    (pkt.ack ≤ s.sendBase →
      (processAck s pkt now).peerRecvWin = s.peerRecvWin) := by
  constructor
  · intro h
    rw [processAck, if_pos h]
  · intro h
    rw [processAck, if_neg (by omega)]

theorem peer_window_update_conditional_witness :
    initState.sendBase < 1 ∧
    (processAck initState ⟨1, 16, 0, 0, 1, 0, 0, []⟩ 0).peerRecvWin =
      clampWin (0 : Nat) :=
  ⟨by decide, (peer_window_update_conditional initState ⟨1, 16, 0, 0, 1, 0, 0, []⟩
    0).1 (by decide)⟩

/-- C8 counterexample: a duplicate ACK (`ack = 3 <= send_base = 5`) carrying
`recv_win = 7` does not update `peer_recv_win` (it stays 5), refuting the
claim that the update is unconditional on the ack comparison. -/
theorem duplicate_ack_window_not_updated :
    (⟨1, 16, 0, 0, 3, 7, 0, []⟩ : Packet).ack ≤
      ({ initState with sendBase := 5, nextSeq := 5 } : ConnState).sendBase ∧
    (processAck { initState with sendBase := 5, nextSeq := 5 }
      ⟨1, 16, 0, 0, 3, 7, 0, []⟩ 0).peerRecvWin = 5 ∧
    (processAck { initState with sendBase := 5, nextSeq := 5 }
      ⟨1, 16, 0, 0, 3, 7, 0, []⟩ 0).peerRecvWin ≠
      clampWin (⟨1, 16, 0, 0, 3, 7, 0, []⟩ : Packet).recvWin := by
  decide

/-- C2 (amended): when the window has room, `send_msg` admits the message with
`seq = next_seq`, stores it in `unacked` under that key, hands exactly that
packet to the substrate, increments `next_seq`, and leaves the timer running
(starting it when it was idle, i.e. when `send_base = next_seq`).  When the
window is full, the call leaves the state completely unchanged, transmits
nothing, does not queue the message, and returns no indication: the Python
function returns `None` on both paths, so the caller receives no `WindowFull`
signal. -/
theorem send_admission_and_silent_drop (s : ConnState) (data : List Nat)
    (now : Nat) (hbase : s.sendBase ≤ s.nextSeq)
    (htimer : s.timerRunning = decide (s.sendBase < s.nextSeq)) :
    (s.nextSeq < s.sendBase + min s.windowSize s.peerRecvWin →
      (sendMsg s data now).2.1 = [sendPacket s data] ∧
      (sendPacket s data).seq = s.nextSeq ∧
      lookupKey s.nextSeq (sendMsg s data now).1.unacked =
        some (sendPacket s data, now) ∧
      (sendMsg s data now).1.nextSeq = s.nextSeq + 1 ∧
      (sendMsg s data now).1.sendBase = s.sendBase ∧
      (sendMsg s data now).1.timerRunning = true ∧
      (sendMsg s data now).2.2 = none) ∧
    (s.sendBase + min s.windowSize s.peerRecvWin ≤ s.nextSeq →
      sendMsg s data now = (s, [], none)) := by
  constructor
  · intro hadm
    rw [sendMsg, if_pos hadm]
    refine ⟨rfl, rfl, ?_, rfl, rfl, ?_, rfl⟩
    · show lookupKey s.nextSeq (dictInsert s.nextSeq (sendPacket s data, now)
        s.unacked) = some (sendPacket s data, now)
      exact lookupKey_dictInsert _ _ _
    · show (if s.sendBase = s.nextSeq then true else s.timerRunning) = true
      split_ifs with heq
      · rfl
      · rw [htimer]
        simp only [decide_eq_true_eq]
        omega
  · intro hfull
    rw [sendMsg, if_neg (by omega)]

theorem send_admission_and_silent_drop_witness :
    initState.sendBase ≤ initState.nextSeq ∧
    initState.timerRunning = decide (initState.sendBase < initState.nextSeq) ∧
    initState.nextSeq < initState.sendBase +
      min initState.windowSize initState.peerRecvWin ∧
    (sendMsg initState [7] 3).1.nextSeq = initState.nextSeq + 1 :=
  ⟨by decide, by decide, by decide,
    ((send_admission_and_silent_drop initState [7] 3 (by decide)
      (by decide)).1 (by decide)).2.2.2.1⟩

/-- C2 counterexample: in a concrete full-window state (`peer_recv_win = 1`,
one packet outstanding), `send_msg` returns `None` exactly as on the admitted
path - not a `WindowFull` indication - while silently discarding the message
and leaving the state unchanged. -/
theorem windowfull_indication_absent :
    ¬ (fullWindow.nextSeq <
        fullWindow.sendBase + min fullWindow.windowSize fullWindow.peerRecvWin) ∧
    (sendMsg fullWindow [7] 3).2.2 ≠ some SendSignal.windowFull ∧
    (sendMsg fullWindow [7] 3).2.2 = none ∧
    (sendMsg fullWindow [7] 3).1 = fullWindow := by
  decide

theorem stepRecv_match (s : ConnState) (p : Packet) (hp : p.payload ≠ [])
    (hs : p.seq = s.expectedSeq) :
    (stepRecv s p).delivered = s.delivered ++ [(p.seq, p.payload)] ∧
      (stepRecv s p).expectedSeq = s.expectedSeq + 1 := by
  rw [stepRecv, dataStep, if_pos hp]
  dsimp only
  rw [if_pos hs]
  exact ⟨rfl, rfl⟩

theorem stepRecv_no_match (s : ConnState) (p : Packet)
    (h : p.payload = [] ∨ p.seq ≠ s.expectedSeq) :
    (stepRecv s p).delivered = s.delivered ∧
      (stepRecv s p).expectedSeq = s.expectedSeq := by
  rw [stepRecv, dataStep]
  rcases h with h | h
  · rw [if_neg (not_not_intro h)]
    exact ⟨rfl, rfl⟩
  · by_cases hord : p.payload ≠ []
    · rw [if_pos hord]
      dsimp only
      rw [if_neg h]
      by_cases hlt : s.expectedSeq < p.seq
      · rw [if_pos hlt]
        exact ⟨rfl, rfl⟩
      · rw [if_neg hlt]
        exact ⟨rfl, rfl⟩
    · rw [if_neg hord]
      exact ⟨rfl, rfl⟩

theorem stepRecv_expected_ge (s : ConnState) (p : Packet) :
    s.expectedSeq ≤ (stepRecv s p).expectedSeq := by
  by_cases hp : p.payload ≠ []
  · by_cases hs : p.seq = s.expectedSeq
    · rw [(stepRecv_match s p hp hs).2]
      omega
    · rw [(stepRecv_no_match s p (Or.inr hs)).2]
  · rw [(stepRecv_no_match s p (Or.inl (not_not.mp hp))).2]

theorem runRecvFrom_cons (s : ConnState) (p : Packet) (t : List Packet) :
    runRecvFrom s (p :: t) = runRecvFrom (stepRecv s p) t := rfl

theorem expected_mono (ps : List Packet) : ∀ (s : ConnState),
    s.expectedSeq ≤ (runRecvFrom s ps).expectedSeq := by
  induction ps with
  | nil => intro s; exact Nat.le_refl _
  | cons p t ih =>
    intro s
    rw [runRecvFrom_cons]
    exact Nat.le_trans (stepRecv_expected_ge s p) (ih (stepRecv s p))

theorem deliveredInv_step (msgs : List (List Nat)) (s : ConnState) (p : Packet)
    (hcp : p.seq < msgs.length ∧ p.payload = msgs.getD p.seq [])
    (h : DeliveredInv msgs s) : DeliveredInv msgs (stepRecv s p) := by
  obtain ⟨h1, h2⟩ := h
  by_cases hs : p.seq = s.expectedSeq
  · by_cases hp : p.payload = []
    · obtain ⟨hd, he⟩ := stepRecv_no_match s p (Or.inl hp)
      exact ⟨by rw [hd, he, h1], by rw [he]; exact h2⟩
    · obtain ⟨hd, he⟩ := stepRecv_match s p hp hs
      constructor
      · rw [hd, he, h1, hcp.2, hs, List.range_succ, List.map_append]
        rfl
      · rw [he]
        omega
  · obtain ⟨hd, he⟩ := stepRecv_no_match s p (Or.inr hs)
    exact ⟨by rw [hd, he, h1], by rw [he]; exact h2⟩

theorem deliveredInv_run (msgs : List (List Nat)) (ps : List Packet) :
    ∀ (s : ConnState), Consistent msgs ps → DeliveredInv msgs s →
      DeliveredInv msgs (runRecvFrom s ps) := by
  induction ps with
  | nil => intro s _ h; exact h
  | cons p t ih =>
    intro s hc h
    rw [runRecvFrom_cons]
    exact ih (stepRecv s p) (fun q hq => hc q (List.mem_cons_of_mem p hq))
      (deliveredInv_step msgs s p (hc p (List.mem_cons_self p t)) h)

theorem recv_complete (msgs : List (List Nat)) (hne : ∀ m ∈ msgs, m ≠ []) :
    ∀ (ps : List Packet) (s : ConnState) (k : Nat), Consistent msgs ps →
      List.Sublist (List.range' s.expectedSeq k) (ps.map Packet.seq) →
      s.expectedSeq + k ≤ (runRecvFrom s ps).expectedSeq := by
  intro ps
  induction ps with
  | nil =>
    intro s k _ hsub
    rw [List.map_nil, List.sublist_nil] at hsub
    have hk : k = 0 := by
      have := congrArg List.length hsub
      simpa [List.length_range'] using this
    simp [runRecvFrom, hk]
  | cons p t ih =>
    intro s k hc hsub
    have hcp := hc p (List.mem_cons_self p t)
    have hct : Consistent msgs t := fun q hq => hc q (List.mem_cons_of_mem p hq)
    cases k with
    | zero =>
      have := expected_mono (p :: t) s
      omega
    | succ k =>
      have hnonempty : p.seq = s.expectedSeq → p.payload ≠ [] := by
        intro _
        rw [hcp.2, List.getD_eq_getElem msgs [] hcp.1]
        exact hne _ (List.getElem_mem hcp.1)
      rw [List.range'_succ] at hsub
      simp only [List.map_cons] at hsub
      rw [runRecvFrom_cons]
      generalize hE : s.expectedSeq = E at hsub
      generalize hQ : p.seq = Q at hsub
      cases hsub with
      | cons _ h2 =>
        by_cases hm : p.seq = s.expectedSeq
        · obtain ⟨_, he⟩ := stepRecv_match s p (hnonempty hm) hm
          have hsub2 : List.Sublist (List.range' (stepRecv s p).expectedSeq k)
              (t.map Packet.seq) := by
            rw [he, hE]
            exact (List.sublist_cons_self E _).trans h2
          have := ih (stepRecv s p) k hct hsub2
          omega
        · obtain ⟨_, he⟩ := stepRecv_no_match s p (Or.inr hm)
          have hsub2 : List.Sublist (List.range' (stepRecv s p).expectedSeq (k + 1))
              (t.map Packet.seq) := by
            rw [he, hE, List.range'_succ]
            exact h2
          have := ih (stepRecv s p) (k + 1) hct hsub2
          omega
      | cons₂ _ h2 =>
        have hm : p.seq = s.expectedSeq := by rw [hQ, hE]
        obtain ⟨_, he⟩ := stepRecv_match s p (hnonempty hm) hm
        have hsub2 : List.Sublist (List.range' (stepRecv s p).expectedSeq k)
            (t.map Packet.seq) := by
          rw [he, hE]
          exact h2
        have := ih (stepRecv s p) k hct hsub2
        omega

/-- C1 (amended): for a stream of incoming data packets carrying the nonempty
messages admitted by the peer's `send`, the receiver's delivery-callback log
is at every point in time exactly `(0, msgs[0]), ..., (e-1, msgs[e-1])` for
the current `expected_seq = e` - a contiguous prefix starting at 0, each
sequence delivered exactly once, in ascending order, duplicates and
out-of-order packets discarded - and as soon as the stream contains the
sequences `0, ..., n-1` in order (as retransmission guarantees), every
admitted message has been delivered exactly once. -/
theorem inorder_exactly_once_delivery (msgs : List (List Nat)) (ps : List Packet)
    (hne : ∀ m ∈ msgs, m ≠ []) (hc : Consistent msgs ps) :
    (∀ qs rest, ps = qs ++ rest →
      (runRecv qs).delivered =
        (List.range (runRecv qs).expectedSeq).map (fun i => (i, msgs.getD i [])) ∧
      (runRecv qs).expectedSeq ≤ msgs.length) ∧
    (List.Sublist (List.range msgs.length) (ps.map Packet.seq) →
      (runRecv ps).delivered =
        (List.range msgs.length).map (fun i => (i, msgs.getD i []))) := by
  have hinit : DeliveredInv msgs initState := ⟨rfl, by simp [initState]⟩
  constructor
  · intro qs rest hsplit
    have hcq : Consistent msgs qs := fun q hq =>
      hc q (by rw [hsplit]; exact List.mem_append_left rest hq)
    exact deliveredInv_run msgs qs initState hcq hinit
  · intro hfair
    have hinv := deliveredInv_run msgs ps initState hc hinit
    have hcomp := recv_complete msgs hne ps initState msgs.length hc
      (by rw [show initState.expectedSeq = 0 from rfl, ← List.range_eq_range']
          exact hfair)
    have heq : (runRecv ps).expectedSeq = msgs.length := by
      have h2 := hinv.2
      show (runRecvFrom initState ps).expectedSeq = msgs.length
      omega
    rw [show runRecv ps = runRecvFrom initState ps from rfl] at heq ⊢
    rw [hinv.1, heq]

theorem inorder_exactly_once_delivery_witness :
    (∀ m ∈ [[65], [66]], m ≠ ([] : List Nat)) ∧
    Consistent [[65], [66]] witnessStream ∧
    List.Sublist (List.range ([[65], [66]] : List (List Nat)).length)
      (witnessStream.map Packet.seq) ∧
    (runRecv witnessStream).delivered =
      (List.range ([[65], [66]] : List (List Nat)).length).map
        (fun i => (i, ([[65], [66]] : List (List Nat)).getD i [])) :=
  ⟨by decide, by decide, by decide,
    (inorder_exactly_once_delivery [[65], [66]] witnessStream (by decide)
      (by decide)).2 (by decide)⟩

/-- C1 counterexample: an empty payload is admitted by `send_msg` (it occupies
sequence 0 here), but the receiver treats empty-payload packets as non-data:
even when the stream delivers sequences 0 and 1 in order, nothing is ever
delivered - the empty message is dropped and it permanently blocks every
later message, refuting "every payload admitted by send is delivered ...
exactly once". -/
theorem empty_payload_never_delivered :
    (sendMsg initState [] 0).1.nextSeq = 1 ∧
    Consistent [[], [66]]
      [⟨1, 0, 0, 0, 0, 10, 0, []⟩, ⟨1, 0, 0, 1, 0, 10, 0, [66]⟩] ∧
    List.Sublist (List.range 2)
      (List.map Packet.seq
        [⟨1, 0, 0, 0, 0, 10, 0, []⟩, ⟨1, 0, 0, 1, 0, 10, 0, [66]⟩]) ∧
    (runRecv [⟨1, 0, 0, 0, 0, 10, 0, []⟩, ⟨1, 0, 0, 1, 0, 10, 0, [66]⟩]).delivered
      = [] := by
  decide

/-- C9 (amended): the source drop model coincides with the amended
description for every profile, draw, state, and random value; in particular
the `clean` profile never drops. -/
theorem maybe_drop_characterization (profile : LossProfile) (r : ℚ) (draw : Nat)
    (st : LossState) :
    maybeDropPacket profile r draw st = maybeDropAmended profile r draw st ∧
    (maybeDropPacket .clean r draw st).1 = false := by
  refine ⟨?_, rfl⟩
  cases profile with
  | clean => rfl
  | random => rfl
  | bursty =>
    rw [maybeDropPacket, maybeDropAmended]
    by_cases ha : st.active = true
    · rw [if_pos ha, if_pos ha]
      by_cases hr : st.remaining - 1 ≤ 0
      · rw [if_pos hr]
        simp only [Prod.mk.injEq, LossState.mk.injEq, true_and, and_true]
        rw [eq_comm, decide_eq_false_iff_not]
        omega
      · rw [if_neg hr]
        simp only [Prod.mk.injEq, LossState.mk.injEq, true_and, and_true]
        rw [eq_comm, decide_eq_true_eq]
        omega
    · rw [if_neg ha, if_neg ha]
      by_cases h2 : r < 2/100
      · rw [if_pos h2, if_pos h2]
      · rw [if_neg h2, if_neg h2]
        by_cases h10 : r < 1/10
        · rw [if_pos h10, if_pos h10]
          simp only [Prod.mk.injEq, and_true]
          rw [decide_eq_true_eq]
          have : (1 : ℚ)/10 < 1/4 := by norm_num
          linarith
        · rw [if_neg h10, if_neg h10]

/-- C9 counterexample: outside a burst the code drops whenever `r < 0.10`,
not with base probability 0.02, and a burst is armed only when
`0.02 <= r < 0.10` (probability 0.08, not 0.10).  At `r = 1/20` the claim
(drop probability 0.02 outside a burst) predicts no drop, but the code drops
and arms a burst; at `r = 1/100 < 0.10` the claim predicts a burst is armed,
but the code drops without arming. -/
theorem bursty_arming_drop_diverges :
    ¬ ((1 : ℚ)/20 < 2/100) ∧
    (maybeDropPacket .bursty (1/20) 5 ⟨false, 0⟩).1 = true ∧
    (maybeDropPacket .bursty (1/20) 5 ⟨false, 0⟩).2.active = true ∧
    ((1 : ℚ)/100 < 1/10) ∧
    (maybeDropPacket .bursty (1/100) 5 ⟨false, 0⟩).2.active = false := by
  refine ⟨by norm_num, ?_, ?_, by norm_num, ?_⟩
  · rw [maybeDropPacket]
    rw [if_neg (by norm_num), if_neg (by norm_num), if_pos (by norm_num)]
    rw [decide_eq_true_eq]
    norm_num
  · rw [maybeDropPacket]
    rw [if_neg (by norm_num), if_neg (by norm_num), if_pos (by norm_num)]
  · rw [maybeDropPacket]
    rw [if_neg (by norm_num), if_pos (by norm_num)]

theorem reachableAny_aux (s : ConnState) (h : ReachableAny s) :
    1 ≤ s.peerRecvWin ∧ s.windowSize = 5 := by
  induction h with
  | init => exact ⟨by decide, rfl⟩
  | send s d n _ ih =>
    rw [step, sendMsg]
    by_cases hadm : s.nextSeq < s.sendBase + min s.windowSize s.peerRecvWin
    · rw [if_pos hadm]
      exact ih
    · rw [if_neg hadm]
      exact ih
  | recvAck s p n _ ih =>
    rw [step, processAck]
    by_cases hack : s.sendBase < p.ack
    · rw [if_pos hack]
      refine ⟨?_, ih.2⟩
      show 1 ≤ clampWin p.recvWin
      rw [clampWin]
      split_ifs <;> omega
    · rw [if_neg hack]
      exact ih
  | timerFire s _ ih => exact ih
  | handshake s pkt _ ih =>
    refine ⟨?_, ih.2⟩
    show 1 ≤ clampWin pkt.recvWin
    rw [clampWin]
    split_ifs <;> omega

/-- C10: every assignment of `peer_recv_win` from a received packet goes
through the zero clamp `clampWin`, which never yields 0, so in every
reachable state - no matter what packets arrive - `peer_recv_win >= 1` and
the effective sender window `min(window_size, peer_recv_win)` is never 0;
the multiplexed server's handshake assignment is clamped the same way. -/
theorem peer_window_clamped_positive (s : ConnState) (h : ReachableAny s) :
    1 ≤ s.peerRecvWin ∧ 1 ≤ min s.windowSize s.peerRecvWin ∧
    (∀ w, 1 ≤ clampWin w) ∧
    (∀ (c : MuxClient) (pkt : Packet), ¬ c.connected →
      (muxHandshakeAck c pkt).peerRecvWin = clampWin pkt.recvWin ∧
        1 ≤ (muxHandshakeAck c pkt).peerRecvWin) := by
  obtain ⟨h1, h2⟩ := reachableAny_aux s h
  have hclamp : ∀ w, 1 ≤ clampWin w := by
    intro w
    rw [clampWin]
    split_ifs <;> omega
  refine ⟨h1, by omega, hclamp, ?_⟩
  intro c pkt hc
  rw [muxHandshakeAck, if_pos hc]
  exact ⟨rfl, hclamp pkt.recvWin⟩

theorem peer_window_clamped_positive_witness :
    1 ≤ initState.peerRecvWin ∧
      1 ≤ min initState.windowSize initState.peerRecvWin :=
  ⟨(peer_window_clamped_positive initState ReachableAny.init).1,
    (peer_window_clamped_positive initState ReachableAny.init).2.1⟩

end Transport
